import Mathlib

/-!
Verification of the bandwidth-tests repository: a TCP throughput measurement
tool with a sender (`src/server/src/main.rs`) that emits 100 chunks of
1,000,000 zero bytes, and a receiver (`src/client/src/main.rs`) that times each
chunk read, records per-chunk metrics, and derives session figures
(average effective rate, BDP, theoretical TCP throughput) plus smoothed series.

Modelling conventions:
* `f64` values are modelled by `F`: exact rationals extended with the IEEE-754
  special values `+inf`, `-inf`, `NaN`.  Rounding is idealized away (the spec's
  "within floating-point epsilon" clause), but the special-value behaviour of
  the arithmetic — in particular unguarded division by zero — is modelled
  faithfully, since several claims are about exactly that.
* `Instant`/`Duration` measurements are modelled as exact rationals (Rust
  `Duration` is an exact integer nanosecond count); the transport is modelled
  as a trace `Nat → Option ℚ`: `trace i = some d` means iteration `i`'s
  `read_exact` completes with measured elapsed time `d`, `trace i = none`
  means the transport closes or errors during that read.
* The sender's transport is a trace `Nat → Bool`: whether the `j`-th
  `write_all` (0-based loop counter) succeeds.
* CSV-file operations are assumed to succeed (they are external collaborators
  per the spec, and no claim is about file I/O failure).
* The Rust literal `0.2` (rtt_seconds) is modelled as the exact rational 1/5,
  and `64_000.0 * 8.0` as 64000 * 8, consistently with the exact-rational
  idealization.
-/

/-- An idealized IEEE-754 double: an exact rational, or one of the special
values `+inf`, `-inf`, `NaN`. -/
inductive F where
  | fin (q : ℚ)
  | pinf
  | ninf
  | nan
  deriving DecidableEq, Inhabited

/-- IEEE-754 addition on `F` (exact in the finite case). -/
def fadd : F → F → F
  | F.nan, _ => F.nan
  | _, F.nan => F.nan
  | F.pinf, F.ninf => F.nan
  | F.ninf, F.pinf => F.nan
  | F.pinf, _ => F.pinf
  | _, F.pinf => F.pinf
  | F.ninf, _ => F.ninf
  | _, F.ninf => F.ninf
  | F.fin a, F.fin b => F.fin (a + b)

/-- IEEE-754 multiplication on `F` (exact in the finite case). -/
def fmul : F → F → F
  | F.nan, _ => F.nan
  | _, F.nan => F.nan
  | F.fin a, F.fin b => F.fin (a * b)
  | F.pinf, F.pinf => F.pinf
  | F.pinf, F.ninf => F.ninf
  | F.ninf, F.pinf => F.ninf
  | F.ninf, F.ninf => F.pinf
  | F.pinf, F.fin b => if 0 < b then F.pinf else if b < 0 then F.ninf else F.nan
  | F.fin a, F.pinf => if 0 < a then F.pinf else if a < 0 then F.ninf else F.nan
  | F.ninf, F.fin b => if 0 < b then F.ninf else if b < 0 then F.pinf else F.nan
  | F.fin a, F.ninf => if 0 < a then F.ninf else if a < 0 then F.pinf else F.nan

/-- IEEE-754 division on `F`: division by a (positive) zero yields a signed
infinity for a nonzero dividend and `NaN` for `0/0`; no error is ever raised.
(Signed zero is idealized to `0`, adequate for this program where every zero
divisor arises from a nonnegative elapsed-time measurement or a count.) -/
def fdiv : F → F → F
  | F.nan, _ => F.nan
  | _, F.nan => F.nan
  | F.fin a, F.fin b =>
      if b = 0 then
        if 0 < a then F.pinf else if a < 0 then F.ninf else F.nan
      else F.fin (a / b)
  | F.fin _, F.pinf => F.fin 0
  | F.fin _, F.ninf => F.fin 0
  | F.pinf, F.fin b => if b < 0 then F.ninf else F.pinf
  | F.ninf, F.fin b => if b < 0 then F.pinf else F.ninf
  | F.pinf, _ => F.nan
  | F.ninf, _ => F.nan

/-- Rust `iter().sum::<f64>()`: left fold of IEEE addition starting from `0.0`. -/
def fsum (l : List F) : F := List.foldl fadd (F.fin 0) l

/-- The function `calculate_bdp` from src/client/src/main.rs: `bandwidth_bps * rtt_seconds`. -/
def calculate_bdp (bandwidth_bps rtt_seconds : F) : F :=
  fmul bandwidth_bps rtt_seconds

/-- The function `calculate_effective_data_rate` from src/client/src/main.rs:
`total_data_bits / total_time_seconds` (an unguarded division). -/
def calculate_effective_data_rate (total_data_bits total_time_seconds : F) : F :=
  fdiv total_data_bits total_time_seconds

/-- The function `calculate_tcp_throughput` from src/client/src/main.rs:
`window_size_bits / rtt_seconds`. -/
def calculate_tcp_throughput (window_size_bits rtt_seconds : F) : F :=
  fdiv window_size_bits rtt_seconds

/-- One row of download_metrics.csv / one per-chunk observation: the loop
index `i`, the measured `download_time`, and the computed
`effective_data_rate` (client main loop, lines 62-77). -/
structure ChunkRecord where
  index : Nat
  duration_seconds : F
  effective_rate_bps : F
  deriving DecidableEq, Inhabited

/-- Rust's `slice::windows(w)`: all contiguous subslices of length `w`, in
order; empty when the slice is shorter than `w`.  (Rust panics on `w = 0`;
the program only uses `w = 5`.) -/
def windows {α : Type} (w : Nat) : List α → List (List α)
  | [] => []
  | x :: xs => if w ≤ xs.length + 1 then (x :: xs).take w :: windows w xs else []

/-- The smoothing `xs.windows(5).map(|w| w.iter().sum::<f64>() / w.len() as f64)` from
`plot_latency_and_data_rate` (client main.rs lines 110-111). -/
def smoothSeries (xs : List F) : List F :=
  (windows 5 xs).map (fun win => fdiv (fsum win) (F.fin (win.length : ℚ)))

/-- The numeric content of `plot_latency_and_data_rate` (client main.rs lines
101-188): the two unsmoothed averages and the two smoothed series.  Chart
rendering itself is an external collaborator per the spec and not modelled. -/
structure PlotData where
  avg_latency : F
  avg_data_rate : F
  smoothed_latencies : List F
  smoothed_data_rates : List F
  deriving DecidableEq, Inhabited

/-- The function `plot_latency_and_data_rate` (client main.rs lines 101-111): computes
the averages of the raw series and the window-5 smoothed series. -/
def plot_latency_and_data_rate (latencies data_rates : List F) : PlotData :=
  { avg_latency := fdiv (fsum latencies) (F.fin (latencies.length : ℚ)),
    avg_data_rate := fdiv (fsum data_rates) (F.fin (data_rates.length : ℚ)),
    smoothed_latencies := smoothSeries latencies,
    smoothed_data_rates := smoothSeries data_rates }

/-- The client's mutable loop state (client main.rs lines 51-78): the CSV
rows written so far, `total_data_transferred`, `total_time` (a Rust
`Duration`, exact), and the `latencies` / `data_rates` vectors. -/
structure LoopState where
  records : List ChunkRecord
  total_data_transferred : Nat
  total_time : ℚ
  latencies : List F
  data_rates : List F
  deriving DecidableEq, Inhabited

/-- The record the client emits for loop iteration `i` with measured
duration `d`: `effective_data_rate = chunk_size / download_time` where
`chunk_size = buffer.len() as f64 * 8.0` (client main.rs lines 54, 70-76). -/
def mkRecord (sz : Nat) (i : Nat) (d : ℚ) : ChunkRecord :=
  { index := i,
    duration_seconds := F.fin d,
    effective_rate_bps := fdiv (F.fin ((sz : ℚ) * 8)) (F.fin d) }

/-- One successful iteration of the client's download loop (client main.rs
lines 62-78): append the CSV row, add `buffer.len()` to
`total_data_transferred`, add the duration to `total_time`, push onto the
`latencies` and `data_rates` vectors. -/
def stepState (sz : Nat) (s : LoopState) (i : Nat) (d : ℚ) : LoopState :=
  { records := s.records ++ [mkRecord sz i d],
    total_data_transferred := s.total_data_transferred + sz,
    total_time := s.total_time + d,
    latencies := s.latencies ++ [F.fin d],
    data_rates := s.data_rates ++ [(mkRecord sz i d).effective_rate_bps] }

/-- Error kinds the client can propagate out of `main` via `?`
(connect failure, `read_exact` failure). -/
inductive ClientError where
  | connectionError
  | transportError
  deriving DecidableEq, Inhabited

/-- The client's `for i in 1..=count` download loop (client main.rs lines
62-78).  At iteration `i` the transport trace either delivers the chunk with
measured duration `d` (the loop state is extended) or fails, in which case
`read_exact(...)?` propagates the error immediately: the loop state is
returned as accumulated so far together with the error, and no partial-chunk
record is produced. -/
def runLoop (trace : Nat → Option ℚ) (sz : Nat) :
    Nat → Nat → LoopState → LoopState × Option ClientError
  | _, 0, s => (s, none)
  | i, n + 1, s =>
    match trace i with
    | none => (s, some ClientError.transportError)
    | some d => runLoop trace sz (i + 1) n (stepState sz s i d)

/-- The client's initial loop state (client main.rs lines 51-60). -/
def initState : LoopState := ⟨[], 0, 0, [], []⟩

/-- Everything the client computes after a fully successful download loop
(client main.rs lines 83-96): the summary figures and the plot data. -/
structure SessionOutput where
  records : List ChunkRecord
  total_bytes : Nat
  total_time_seconds : F
  avg_effective_rate_bps : F
  bdp_bits : F
  tcp_throughput_bps : F
  plot : PlotData
  deriving DecidableEq, Inhabited

/-- The summary derivation (client main.rs lines 83-96): `total_data_bits =
total_data_transferred as f64 * 8.0`, the average rate by unguarded division,
`rtt_seconds = 0.2` (exactly 1/5 here), `tcp_window_size_bits =
64_000.0 * 8.0`, and the plot over the collected series. -/
def mkOutput (s : LoopState) : SessionOutput :=
  { records := s.records,
    total_bytes := s.total_data_transferred,
    total_time_seconds := F.fin s.total_time,
    avg_effective_rate_bps :=
      calculate_effective_data_rate
        (F.fin ((s.total_data_transferred : ℚ) * 8)) (F.fin s.total_time),
    bdp_bits :=
      calculate_bdp
        (calculate_effective_data_rate
          (F.fin ((s.total_data_transferred : ℚ) * 8)) (F.fin s.total_time))
        (F.fin (1 / 5)),
    tcp_throughput_bps :=
      calculate_tcp_throughput (F.fin ((64000 : ℚ) * 8)) (F.fin (1 / 5)),
    plot := plot_latency_and_data_rate s.latencies s.data_rates }

/-- The client's `main`, parametrized by the loop bound and chunk size (the
source fixes them to 100 and 1,000,000; see `clientMain`): connect (may
fail), run the download loop (a `read_exact` failure propagates via `?` and
aborts `main` before any summary derivation), then derive the summary and
plot data.  An `Except.error` result is a non-zero process exit. -/
def clientRun (cnt sz : Nat) (connectOk : Bool) (trace : Nat → Option ℚ) :
    Except ClientError SessionOutput :=
  if connectOk then
    match (runLoop trace sz 1 cnt initState).2 with
    | some e => Except.error e
    | none => Except.ok (mkOutput (runLoop trace sz 1 cnt initState).1)
  else Except.error ClientError.connectionError

/-- The client's `main` with the source's constants: 100 chunks of
1,000,000 bytes. -/
def clientMain (connectOk : Bool) (trace : Nat → Option ℚ) :
    Except ClientError SessionOutput :=
  clientRun 100 1000000 connectOk trace

/-- The one error the server's `main` can propagate via `?`: the
`TcpListener::bind` failure. -/
inductive ServerError where
  | bindError
  deriving DecidableEq, Inhabited

/-- What `listener.incoming().next()` yields: a connection (characterized by
which of its writes will succeed) or an accept error. -/
inductive Incoming where
  | conn (writeOk : Nat → Bool)
  | connErr

/-- The 1 MB chunk of dummy data, generalized over its size:
`vec![0u8; 1_000_000]` (server main.rs line 13). -/
def zeroChunk (sz : Nat) : List Nat := List.replicate sz 0

/-- The sender's emission loop (server main.rs lines 15-22): write the chunk
`n` more times starting at write index `j`; on the first failed `write_all`
print to stderr and `return` (abort, no retry, nothing reported to the
caller).  Returns the chunks actually put on the wire and whether the loop
completed normally. -/
def sendLoop (writeOk : Nat → Bool) (chunk : List Nat) :
    Nat → Nat → List (List Nat) × Bool
  | _, 0 => ([], true)
  | j, n + 1 =>
    if writeOk j then
      ((sendLoop writeOk chunk (j + 1) n).1.cons chunk,
        (sendLoop writeOk chunk (j + 1) n).2)
    else ([], false)

/-- The function `handle_client` (server main.rs lines 6-25): send 100 chunks of
1,000,000 zero bytes.  Its Rust return type is `()` — the second component —
so a write failure is never reported to the caller. -/
def handle_client (writeOk : Nat → Bool) : List (List Nat) × Unit :=
  ((sendLoop writeOk (zeroChunk 1000000) 0 100).1, ())

/-- The server's `main` (server main.rs lines 27-42): bind (the only `?`),
take one incoming connection; an accept error is only printed, and
`handle_client`'s outcome is discarded, so in every case after a successful
bind the process exits with `Ok(())`, i.e. exit code 0. -/
def serverMain (bindOk : Bool) (inc : Incoming) : Except ServerError Unit :=
  if bindOk then
    match inc with
    | Incoming.conn w =>
        let _ := handle_client w
        Except.ok ()
    | Incoming.connErr => Except.ok ()
  else Except.error ServerError.bindError

/-- The transport delivered chunks with exactly the durations `ds` for the
consecutive iterations starting at `i`. -/
def deliversFrom (trace : Nat → Option ℚ) : Nat → List ℚ → Prop
  | _, [] => True
  | i, d :: ds => trace i = some d ∧ deliversFrom trace (i + 1) ds

/-- The records the loop emits for consecutive iterations starting at `i`
with measured durations `ds`. -/
def recordsFrom (sz : Nat) : Nat → List ℚ → List ChunkRecord
  | _, [] => []
  | i, d :: ds => mkRecord sz i d :: recordsFrom sz (i + 1) ds

/-- The loop state after successfully consuming durations `ds` from state
`s` starting at iteration `i`: one `stepState` per duration. -/
def accumulated (sz : Nat) : LoopState → Nat → List ℚ → LoopState
  | s, _, [] => s
  | s, i, d :: ds => accumulated sz (stepState sz s i d) (i + 1) ds

/-- A trace that delivers every chunk in exactly 1 second. -/
def trOne : Nat → Option ℚ := fun _ => some 1

/-- A small concrete session: 6 chunks of 2 bytes, each taking 1 second. -/
def sampleOut : SessionOutput :=
  ((clientRun 6 2 true trOne).toOption).getD default

/-- A small concrete degenerate session: 3 chunks (fewer than the smoothing
window). -/
def sampleOut3 : SessionOutput :=
  ((clientRun 3 2 true trOne).toOption).getD default

/-- A trace that delivers chunks 1..37 in 1 second each and then fails:
the transport error occurs at iteration 38. -/
def trace37fail : Nat → Option ℚ := fun i => if i ≤ 37 then some 1 else none

/-- A small failing trace: chunks 1 and 2 delivered, failure at iteration 3. -/
def trFail2 : Nat → Option ℚ := fun i => if i ≤ 2 then some 1 else none

/-- A trace where chunk 2 takes zero measured time and the others 1 second. -/
def trMid : Nat → Option ℚ := fun i => some (if i = 2 then 0 else 1)

/-! ### Helper lemmas: `runLoop` equations and `F` sums -/

theorem runLoop_zero (trace : Nat → Option ℚ) (sz i : Nat) (s : LoopState) :
    runLoop trace sz i 0 s = (s, none) := rfl

theorem runLoop_succ (trace : Nat → Option ℚ) (sz i n : Nat) (s : LoopState) :
    runLoop trace sz i (n + 1) s =
      match trace i with
      | none => (s, some ClientError.transportError)
      | some d => runLoop trace sz (i + 1) n (stepState sz s i d) := rfl

theorem fsum_fin_aux (l : List ℚ) :
    ∀ a : ℚ, List.foldl fadd (F.fin a) (l.map F.fin) = F.fin (a + l.sum) := by
  induction l with
  | nil => intro a; simp [fadd]
  | cons d ds ih =>
    intro a
    simp only [List.map_cons, List.foldl_cons, fadd, List.sum_cons]
    rw [ih]
    congr 1
    ring

theorem fsum_map_fin (l : List ℚ) : fsum (l.map F.fin) = F.fin l.sum := by
  simpa using fsum_fin_aux l 0

/-! ### Helper lemmas: `windows` and `smoothSeries` -/

theorem windows_length {α : Type} (w : Nat) (hw : 1 ≤ w) :
    ∀ xs : List α, (windows w xs).length = xs.length + 1 - w := by
  intro xs
  induction xs with
  | nil => simp [windows]; omega
  | cons x xs ih =>
    simp only [windows]
    by_cases h : w ≤ xs.length + 1
    · rw [if_pos h]
      simp only [List.length_cons, ih]
      omega
    · rw [if_neg h]
      simp only [List.length_cons, List.length_nil]
      omega

theorem windows_getElem {α : Type} (w : Nat) :
    ∀ (xs : List α) (i : Nat) (h : i < (windows w xs).length),
      (windows w xs)[i] = (xs.drop i).take w := by
  intro xs
  induction xs with
  | nil => intro i h; simp [windows] at h
  | cons x xs ih =>
    intro i h
    by_cases hw : w ≤ xs.length + 1
    · have hcons : windows w (x :: xs) = (x :: xs).take w :: windows w xs := by
        simp [windows, hw]
      cases i with
      | zero => simp [hcons]
      | succ j =>
        have h' : j < (windows w xs).length := by
          have hh := h
          rw [hcons] at hh
          simpa using hh
        simp only [hcons, List.getElem_cons_succ, List.drop_succ_cons]
        exact ih j h'
    · exfalso
      simp [windows, hw] at h

theorem smoothSeries_length (xs : List F) :
    (smoothSeries xs).length = xs.length + 1 - 5 := by
  simp [smoothSeries, windows_length 5 (by norm_num) xs]

theorem windows_five_window_length (xs : List F) (i : Nat)
    (h : i < (windows 5 xs).length) : ((xs.drop i).take 5).length = 5 := by
  have hl := windows_length 5 (by norm_num) xs
  rw [hl] at h
  simp only [List.length_take, List.length_drop]
  omega

theorem smoothSeries_getElem (xs : List F) (i : Nat)
    (hi : i < (smoothSeries xs).length) :
    (smoothSeries xs)[i] = fdiv (fsum ((xs.drop i).take 5)) (F.fin 5) := by
  have hi' : i < (windows 5 xs).length := by
    simpa [smoothSeries] using hi
  simp only [smoothSeries, List.getElem_map]
  rw [windows_getElem 5 xs i hi', windows_five_window_length xs i hi']
  norm_num

theorem smoothSeries_nil_of_short (xs : List F) (h : xs.length < 5) :
    smoothSeries xs = [] := by
  have := smoothSeries_length xs
  have hz : (smoothSeries xs).length = 0 := by omega
  exact List.length_eq_zero.mp hz

/-! ### Helper lemmas: `recordsFrom` -/

theorem recordsFrom_length (sz : Nat) :
    ∀ (ds : List ℚ) (i : Nat), (recordsFrom sz i ds).length = ds.length := by
  intro ds
  induction ds with
  | nil => intro i; simp [recordsFrom]
  | cons d ds ih => intro i; simp [recordsFrom, ih]

theorem recordsFrom_map_index (sz : Nat) :
    ∀ (ds : List ℚ) (i : Nat),
      (recordsFrom sz i ds).map (fun r => r.index) = List.range' i ds.length := by
  intro ds
  induction ds with
  | nil => intro i; simp [recordsFrom]
  | cons d ds ih =>
    intro i
    simp [recordsFrom, mkRecord, ih, List.range'_succ]

theorem recordsFrom_map_duration (sz : Nat) :
    ∀ (ds : List ℚ) (i : Nat),
      (recordsFrom sz i ds).map (fun r => r.duration_seconds) = ds.map F.fin := by
  intro ds
  induction ds with
  | nil => intro i; simp [recordsFrom]
  | cons d ds ih => intro i; simp [recordsFrom, mkRecord, ih]

theorem recordsFrom_rate_law (sz : Nat) :
    ∀ (ds : List ℚ) (i : Nat) (r : ChunkRecord), r ∈ recordsFrom sz i ds →
      r.effective_rate_bps = fdiv (F.fin ((sz : ℚ) * 8)) r.duration_seconds := by
  intro ds
  induction ds with
  | nil => intro i r hr; simp [recordsFrom] at hr
  | cons d ds ih =>
    intro i r hr
    rcases List.mem_cons.mp hr with h | h
    · subst h; rfl
    · exact ih (i + 1) r h

/-! ### Helper lemmas: closed forms of the download loop -/

theorem accumulated_records (sz : Nat) :
    ∀ (ds : List ℚ) (s : LoopState) (i : Nat),
      (accumulated sz s i ds).records = s.records ++ recordsFrom sz i ds := by
  intro ds
  induction ds with
  | nil => intro s i; simp [accumulated, recordsFrom]
  | cons d ds ih =>
    intro s i
    rw [accumulated, ih, recordsFrom]
    simp [stepState]

theorem accumulated_total_data (sz : Nat) :
    ∀ (ds : List ℚ) (s : LoopState) (i : Nat),
      (accumulated sz s i ds).total_data_transferred =
        s.total_data_transferred + ds.length * sz := by
  intro ds
  induction ds with
  | nil => intro s i; simp [accumulated]
  | cons d ds ih =>
    intro s i
    rw [accumulated, ih]
    simp [stepState]
    ring

theorem accumulated_total_time (sz : Nat) :
    ∀ (ds : List ℚ) (s : LoopState) (i : Nat),
      (accumulated sz s i ds).total_time = s.total_time + ds.sum := by
  intro ds
  induction ds with
  | nil => intro s i; simp [accumulated]
  | cons d ds ih =>
    intro s i
    rw [accumulated, ih]
    simp [stepState]
    ring

theorem accumulated_latencies (sz : Nat) :
    ∀ (ds : List ℚ) (s : LoopState) (i : Nat),
      (accumulated sz s i ds).latencies = s.latencies ++ ds.map F.fin := by
  intro ds
  induction ds with
  | nil => intro s i; simp [accumulated]
  | cons d ds ih =>
    intro s i
    rw [accumulated, ih]
    simp [stepState]

theorem accumulated_data_rates (sz : Nat) :
    ∀ (ds : List ℚ) (s : LoopState) (i : Nat),
      (accumulated sz s i ds).data_rates =
        s.data_rates ++ (recordsFrom sz i ds).map (fun r => r.effective_rate_bps) := by
  intro ds
  induction ds with
  | nil => intro s i; simp [accumulated, recordsFrom]
  | cons d ds ih =>
    intro s i
    rw [accumulated, ih, recordsFrom]
    simp [stepState]

theorem runLoop_success (trace : Nat → Option ℚ) (sz : Nat) :
    ∀ (ds : List ℚ) (i : Nat) (s : LoopState), deliversFrom trace i ds →
      runLoop trace sz i ds.length s = (accumulated sz s i ds, none) := by
  intro ds
  induction ds with
  | nil => intro i s _; rfl
  | cons d ds ih =>
    intro i s h
    obtain ⟨h1, h2⟩ := h
    rw [List.length_cons, runLoop_succ, h1]
    exact ih (i + 1) (stepState sz s i d) h2

theorem runLoop_abort (trace : Nat → Option ℚ) (sz : Nat) :
    ∀ (ds : List ℚ) (i n : Nat) (s : LoopState), deliversFrom trace i ds →
      trace (i + ds.length) = none → ds.length < n →
      runLoop trace sz i n s =
        (accumulated sz s i ds, some ClientError.transportError) := by
  intro ds
  induction ds with
  | nil =>
    intro i n s _ h2 h3
    obtain ⟨m, rfl⟩ : ∃ m, n = m + 1 := ⟨n - 1, by omega⟩
    rw [runLoop_succ]
    simp only [List.length_nil, Nat.add_zero] at h2
    rw [h2]
    rfl
  | cons d ds ih =>
    intro i n s h h2 h3
    obtain ⟨h1, hrest⟩ := h
    obtain ⟨m, rfl⟩ : ∃ m, n = m + 1 := ⟨n - 1, by omega⟩
    rw [runLoop_succ, h1]
    have h2' : trace ((i + 1) + ds.length) = none := by
      have harith : (i + 1) + ds.length = i + (d :: ds).length := by
        simp only [List.length_cons]
        omega
      rw [harith]
      exact h2
    have h3' : ds.length < m := by
      simp only [List.length_cons] at h3
      omega
    exact ih (i + 1) m (stepState sz s i d) hrest h2' h3'

theorem runLoop_ok_delivers (trace : Nat → Option ℚ) (sz : Nat) :
    ∀ (n i : Nat) (s s' : LoopState), runLoop trace sz i n s = (s', none) →
      ∃ ds : List ℚ, ds.length = n ∧ deliversFrom trace i ds := by
  intro n
  induction n with
  | zero => intro i s s' _; exact ⟨[], rfl, trivial⟩
  | succ m ih =>
    intro i s s' h
    rw [runLoop_succ] at h
    cases htr : trace i with
    | none =>
      rw [htr] at h
      simp at h
    | some d =>
      rw [htr] at h
      obtain ⟨ds, hlen, hdel⟩ := ih (i + 1) (stepState sz s i d) s' h
      exact ⟨d :: ds, by simp [hlen], htr, hdel⟩

/-! ### Helper lemmas: shape of a client run -/

theorem clientRun_of_delivers (cnt sz : Nat) (trace : Nat → Option ℚ)
    (ds : List ℚ) (h1 : deliversFrom trace 1 ds) (h2 : ds.length = cnt) :
    clientRun cnt sz true trace =
      Except.ok (mkOutput (accumulated sz initState 1 ds)) := by
  have hrun := runLoop_success trace sz ds 1 initState h1
  rw [h2] at hrun
  simp [clientRun, hrun]

theorem clientRun_ok_shape (cnt sz : Nat) (trace : Nat → Option ℚ)
    (out : SessionOutput) (h : clientRun cnt sz true trace = Except.ok out) :
    ∃ ds : List ℚ, ds.length = cnt ∧ deliversFrom trace 1 ds ∧
      out = mkOutput (accumulated sz initState 1 ds) := by
  rcases hE : runLoop trace sz 1 cnt initState with ⟨s', e⟩
  simp only [clientRun, if_true, hE] at h
  cases e with
  | some e' => exact absurd h (by simp)
  | none =>
    simp only [Except.ok.injEq] at h
    obtain ⟨ds, hlen, hdel⟩ := runLoop_ok_delivers trace sz cnt 1 initState s' hE
    have hrun := runLoop_success trace sz ds 1 initState hdel
    rw [hlen, hE] at hrun
    have hs' : s' = accumulated sz initState 1 ds := by
      have := congrArg Prod.fst hrun
      simpa using this
    exact ⟨ds, hlen, hdel, by rw [← h, hs']⟩

/-! ### Helper lemmas: concrete sample runs and sender loop -/

theorem sampleRun_ok : clientRun 6 2 true trOne = Except.ok sampleOut := rfl

theorem sampleRun3_ok : clientRun 3 2 true trOne = Except.ok sampleOut3 := rfl

theorem sendLoop_succ_eq (writeOk : Nat → Bool) (chunk : List Nat) (j n : Nat) :
    sendLoop writeOk chunk j (n + 1) =
      if writeOk j then
        ((sendLoop writeOk chunk (j + 1) n).1.cons chunk,
          (sendLoop writeOk chunk (j + 1) n).2)
      else ([], false) := rfl

theorem sendLoop_all_ok (writeOk : Nat → Bool) (chunk : List Nat) :
    ∀ (n j : Nat), (∀ m, m < n → writeOk (j + m) = true) →
      sendLoop writeOk chunk j n = (List.replicate n chunk, true) := by
  intro n
  induction n with
  | zero => intro j _; rfl
  | succ m ih =>
    intro j hok
    have h0 : writeOk j = true := by simpa using hok 0 (by omega)
    rw [sendLoop_succ_eq, h0]
    have hok' : ∀ m', m' < m → writeOk ((j + 1) + m') = true := by
      intro m' hm'
      have harith : (j + 1) + m' = j + (m' + 1) := by omega
      rw [harith]
      exact hok (m' + 1) (by omega)
    rw [if_pos rfl, ih (j + 1) hok']
    simp [List.replicate_succ]

theorem sendLoop_abort (writeOk : Nat → Bool) (chunk : List Nat) :
    ∀ (k n j : Nat), k < n → (∀ m, m < k → writeOk (j + m) = true) →
      writeOk (j + k) = false →
      sendLoop writeOk chunk j n = (List.replicate k chunk, false) := by
  intro k
  induction k with
  | zero =>
    intro n j hk hok hfail
    obtain ⟨m, rfl⟩ : ∃ m, n = m + 1 := ⟨n - 1, by omega⟩
    simp only [Nat.add_zero] at hfail
    rw [sendLoop_succ_eq, hfail]
    simp
  | succ p ih =>
    intro n j hk hok hfail
    obtain ⟨m, rfl⟩ : ∃ m, n = m + 1 := ⟨n - 1, by omega⟩
    have h0 : writeOk j = true := by simpa using hok 0 (by omega)
    rw [sendLoop_succ_eq, h0, if_pos rfl]
    have hok' : ∀ m', m' < p → writeOk ((j + 1) + m') = true := by
      intro m' hm'
      have harith : (j + 1) + m' = j + (m' + 1) := by omega
      rw [harith]
      exact hok (m' + 1) (by omega)
    have hfail' : writeOk ((j + 1) + p) = false := by
      have harith : (j + 1) + p = j + (p + 1) := by omega
      rw [harith]
      exact hfail
    rw [ih m (j + 1) (by omega) hok' hfail']
    simp [List.replicate_succ]

theorem zeroChunk_flatten (sz : Nat) :
    ∀ cnt : Nat, (List.replicate cnt (zeroChunk sz)).flatten
      = List.replicate (cnt * sz) (0 : Nat) := by
  intro cnt
  induction cnt with
  | zero => simp
  | succ m ih =>
    rw [List.replicate_succ, List.flatten_cons, ih, zeroChunk]
    rw [← List.replicate_add]
    congr 1
    ring

/-! ### Claim theorems -/

/-- C5 (confirmed): for every completed session, `total_time_seconds` equals
the IEEE sum of all `ChunkRecord.duration_seconds` (exactly, in the
exact-rational model — hence within floating-point epsilon for the real
program), and `total_bytes` equals `chunk_size_bytes × chunk_count`
exactly. -/
theorem session_totals (cnt sz : Nat) (trace : Nat → Option ℚ)
    (out : SessionOutput) (h : clientRun cnt sz true trace = Except.ok out) :
    out.total_time_seconds = fsum (out.records.map (fun r => r.duration_seconds))
  ∧ out.total_bytes = sz * cnt := by
  obtain ⟨ds, hlen, hdel, rfl⟩ := clientRun_ok_shape cnt sz trace out h
  constructor
  · simp [mkOutput, accumulated_records, accumulated_total_time, initState,
      recordsFrom_map_duration, fsum_map_fin]
  · simp only [mkOutput, accumulated_total_data, initState]
    rw [hlen]
    simp [Nat.mul_comm]

/-- C5 witness: a concrete 6-chunk, 2-byte session at 1 second per chunk. -/
theorem session_totals_witness :
    sampleOut.total_time_seconds
      = fsum (sampleOut.records.map (fun r => r.duration_seconds))
  ∧ sampleOut.total_bytes = 2 * 6 :=
  session_totals 6 2 trOne sampleOut sampleRun_ok

/-- C9 (confirmed): for every completed session of size `cnt`, the record
indices form exactly the sequence `1..cnt` (i.e. `List.range' 1 cnt`) in
strictly ascending arrival order, with no gaps or repeats. -/
theorem record_indices (cnt sz : Nat) (trace : Nat → Option ℚ)
    (out : SessionOutput) (h : clientRun cnt sz true trace = Except.ok out) :
    out.records.map (fun r => r.index) = List.range' 1 cnt
  ∧ List.Pairwise (fun a b => a < b) (out.records.map (fun r => r.index)) := by
  obtain ⟨ds, hlen, hdel, rfl⟩ := clientRun_ok_shape cnt sz trace out h
  have hmap : (mkOutput (accumulated sz initState 1 ds)).records.map
      (fun r => r.index) = List.range' 1 cnt := by
    simp [mkOutput, accumulated_records, initState, recordsFrom_map_index, hlen]
  refine ⟨hmap, ?_⟩
  rw [hmap]
  exact List.pairwise_lt_range' ..

/-- C9 witness: the concrete 6-chunk session has indices `[1, 2, 3, 4, 5, 6]`. -/
theorem record_indices_witness :
    sampleOut.records.map (fun r => r.index) = List.range' 1 6 :=
  (record_indices 6 2 trOne sampleOut sampleRun_ok).1

/-- C7 (confirmed): for every chunk the receiver completes, the emitted
record's `duration_seconds` is exactly the measured elapsed time for that
read, its `effective_rate_bps` equals `chunk_size_bytes × 8 /
duration_seconds`, and the records carry the next sequential index
(`1..cnt` in order). -/
theorem chunk_record_contents (cnt sz : Nat) (trace : Nat → Option ℚ)
    (ds : List ℚ) (out : SessionOutput)
    (h1 : deliversFrom trace 1 ds) (h2 : ds.length = cnt)
    (h : clientRun cnt sz true trace = Except.ok out) :
    out.records.map (fun r => r.duration_seconds) = ds.map F.fin
  ∧ (∀ r ∈ out.records,
      r.effective_rate_bps = fdiv (F.fin ((sz : ℚ) * 8)) r.duration_seconds)
  ∧ out.records.map (fun r => r.index) = List.range' 1 cnt := by
  have hok := clientRun_of_delivers cnt sz trace ds h1 h2
  rw [h] at hok
  injection hok with hout
  subst hout
  refine ⟨?_, ?_, ?_⟩
  · simp [mkOutput, accumulated_records, initState, recordsFrom_map_duration]
  · intro r hr
    simp only [mkOutput, accumulated_records, initState,
      List.nil_append] at hr
    exact recordsFrom_rate_law sz ds 1 r hr
  · simp [mkOutput, accumulated_records, initState, recordsFrom_map_index, h2]

/-- C7 witness: the concrete 6-chunk session, whose measured durations are
all 1 second. -/
theorem chunk_record_contents_witness :
    sampleOut.records.map (fun r => r.duration_seconds)
      = [1, 1, 1, 1, 1, 1].map F.fin :=
  (chunk_record_contents 6 2 trOne [1, 1, 1, 1, 1, 1] sampleOut
    ⟨rfl, rfl, rfl, rfl, rfl, rfl, trivial⟩ rfl sampleRun_ok).1

/-- C4 (confirmed): for every completed session of `cnt` raw samples and
window size 5, each smoothed series (latency and rate) has length
`cnt + 1 - 5` in truncated `Nat` subtraction (i.e. `max(0, n − w + 1)`),
element `i` is the arithmetic mean (IEEE sum divided by 5) of the raw
samples `[i, i+5)`, and when `cnt < 5` both smoothed series are empty as a
defined, non-error case. -/
theorem smoothing_law (cnt sz : Nat) (trace : Nat → Option ℚ)
    (out : SessionOutput) (h : clientRun cnt sz true trace = Except.ok out) :
    out.plot.smoothed_latencies.length = cnt + 1 - 5
  ∧ out.plot.smoothed_data_rates.length = cnt + 1 - 5
  ∧ (∀ i (hi : i < out.plot.smoothed_latencies.length),
      out.plot.smoothed_latencies[i] =
        fdiv (fsum (((out.records.map (fun r => r.duration_seconds)).drop i).take 5))
          (F.fin 5))
  ∧ (∀ i (hi : i < out.plot.smoothed_data_rates.length),
      out.plot.smoothed_data_rates[i] =
        fdiv (fsum (((out.records.map (fun r => r.effective_rate_bps)).drop i).take 5))
          (F.fin 5))
  ∧ (cnt < 5 →
      out.plot.smoothed_latencies = [] ∧ out.plot.smoothed_data_rates = []) := by
  obtain ⟨ds, hlen, hdel, rfl⟩ := clientRun_ok_shape cnt sz trace out h
  have hplotL : (mkOutput (accumulated sz initState 1 ds)).plot.smoothed_latencies
      = smoothSeries (ds.map F.fin) := by
    simp [mkOutput, plot_latency_and_data_rate, accumulated_latencies, initState]
  have hplotR : (mkOutput (accumulated sz initState 1 ds)).plot.smoothed_data_rates
      = smoothSeries ((recordsFrom sz 1 ds).map (fun r => r.effective_rate_bps)) := by
    simp [mkOutput, plot_latency_and_data_rate, accumulated_data_rates, initState]
  have hrecdur : (mkOutput (accumulated sz initState 1 ds)).records.map
      (fun r => r.duration_seconds) = ds.map F.fin := by
    simp [mkOutput, accumulated_records, initState, recordsFrom_map_duration]
  have hrecrate : (mkOutput (accumulated sz initState 1 ds)).records.map
      (fun r => r.effective_rate_bps)
      = (recordsFrom sz 1 ds).map (fun r => r.effective_rate_bps) := by
    simp [mkOutput, accumulated_records, initState]
  have hlenL : (ds.map F.fin).length = cnt := by simp [hlen]
  have hlenR : ((recordsFrom sz 1 ds).map (fun r => r.effective_rate_bps)).length
      = cnt := by simp [recordsFrom_length, hlen]
  refine ⟨?_, ?_, ?_, ?_, ?_⟩
  · rw [hplotL, smoothSeries_length, hlenL]
  · rw [hplotR, smoothSeries_length, hlenR]
  · intro i hi
    simp only [hplotL, hrecdur]
    apply smoothSeries_getElem
  · intro i hi
    simp only [hplotR, hrecrate]
    apply smoothSeries_getElem
  · intro hcnt
    constructor
    · rw [hplotL]
      exact smoothSeries_nil_of_short _ (by omega)
    · rw [hplotR]
      exact smoothSeries_nil_of_short _ (by omega)

/-- C4 witness: the 6-chunk session has smoothed series of length 2, and
the degenerate 3-chunk session (fewer samples than the window) has two
empty smoothed series. -/
theorem smoothing_law_witness :
    sampleOut.plot.smoothed_latencies.length = 2
  ∧ sampleOut3.plot.smoothed_latencies = []
  ∧ sampleOut3.plot.smoothed_data_rates = [] := by
  refine ⟨(smoothing_law 6 2 trOne sampleOut sampleRun_ok).1, ?_, ?_⟩
  · exact ((smoothing_law 3 2 trOne sampleOut3 sampleRun3_ok).2.2.2.2 (by norm_num)).1
  · exact ((smoothing_law 3 2 trOne sampleOut3 sampleRun3_ok).2.2.2.2 (by norm_num)).2

/-- C6 (confirmed): `calculate_bdp` is exactly
`bandwidth_bps × rtt_seconds` and `calculate_tcp_throughput` is exactly
`window_size_bits / rtt_seconds`, as pure functions of their arguments; in
every completed session `bdp_bits = avg_effective_rate_bps × rtt_seconds`
(rtt = 0.2 s) and `tcp_throughput_bps` is the constant
`64000 × 8 / 0.2 = 2,560,000` bps, independent of the observed transfer. -/
theorem derived_figures (b r w : F) (cnt sz : Nat) (trace : Nat → Option ℚ)
    (out : SessionOutput) :
    calculate_bdp b r = fmul b r
  ∧ calculate_tcp_throughput w r = fdiv w r
  ∧ (clientRun cnt sz true trace = Except.ok out →
      out.bdp_bits = fmul out.avg_effective_rate_bps (F.fin (1 / 5))
      ∧ out.tcp_throughput_bps = F.fin 2560000) := by
  refine ⟨rfl, rfl, fun h => ?_⟩
  obtain ⟨ds, hlen, hdel, rfl⟩ := clientRun_ok_shape cnt sz trace out h
  refine ⟨rfl, ?_⟩
  show calculate_tcp_throughput (F.fin ((64000 : ℚ) * 8)) (F.fin (1 / 5))
      = F.fin 2560000
  rw [calculate_tcp_throughput, fdiv]
  norm_num

/-- C6 witness: the formulas at concrete arguments, and the concrete
6-chunk session's constant theoretical throughput. -/
theorem derived_figures_witness :
    calculate_bdp (F.fin 1) (F.fin 2) = fmul (F.fin 1) (F.fin 2)
  ∧ sampleOut.tcp_throughput_bps = F.fin 2560000 :=
  ⟨(derived_figures (F.fin 1) (F.fin 2) (F.fin 3) 6 2 trOne sampleOut).1,
    ((derived_figures (F.fin 1) (F.fin 2) (F.fin 3) 6 2 trOne
      sampleOut).2.2 sampleRun_ok).2⟩

/-- C1 counterexample: with zero records collected the summary inputs are
`0.0` total bits and `0.0` total seconds, and `calculate_effective_data_rate`
does not fail with any error — it is a total function that silently returns
the value NaN (`0/0`), contradicting "fails with a DivideByZero-class error
… never silently produces infinite or NaN figures". -/
theorem avg_rate_zero_records_nan :
    calculate_effective_data_rate (F.fin 0) (F.fin 0) = F.nan := by
  rfl

/-- C1 (amended): the summary average is an unguarded division that cannot
fail: with zero total time it silently yields `+inf` for positive total bits
and NaN for zero total bits, and for nonzero `total_time_seconds` it equals
`total_bytes × 8 / total_time_seconds`; that formula is what every completed
session's `avg_effective_rate_bps` is computed by.  No ComputationError
exists in the code. -/
theorem avg_rate_division_unguarded (b t : ℚ) :
    (t ≠ 0 → calculate_effective_data_rate (F.fin b) (F.fin t) = F.fin (b / t))
  ∧ (0 < b → calculate_effective_data_rate (F.fin b) (F.fin 0) = F.pinf)
  ∧ (∀ (cnt sz : Nat) (trace : Nat → Option ℚ) (out : SessionOutput),
      clientRun cnt sz true trace = Except.ok out →
        out.avg_effective_rate_bps =
          fdiv (F.fin ((out.total_bytes : ℚ) * 8)) out.total_time_seconds) := by
  refine ⟨fun ht => ?_, fun hb => ?_, fun cnt sz trace out h => ?_⟩
  · rw [calculate_effective_data_rate, fdiv, if_neg ht]
  · rw [calculate_effective_data_rate, fdiv, if_pos rfl, if_pos hb]
  · obtain ⟨ds, hlen, hdel, rfl⟩ := clientRun_ok_shape cnt sz trace out h
    rfl

/-- C1 amended witness: a nonzero-time instance and a zero-time instance. -/
theorem avg_rate_division_unguarded_witness :
    calculate_effective_data_rate (F.fin 8) (F.fin 2) = F.fin 4
  ∧ calculate_effective_data_rate (F.fin 8) (F.fin 0) = F.pinf := by
  constructor
  · have h := (avg_rate_division_unguarded 8 2).1 (by norm_num)
    rw [h]
    norm_num
  · exact (avg_rate_division_unguarded 8 0).2.1 (by norm_num)

/-- C2 counterexample: when the transport fails at iteration 38 (after 37
complete chunks), the client's `read_exact(...)?` aborts `main` with the
transport error — the run produces `Except.error`, so no SessionSummary is
derived over the 37 collected records, contradicting "summary derivation
still proceeds over exactly the k records collected before the abort". -/
theorem abort_skips_summary_at_37 :
    clientMain true trace37fail = Except.error ClientError.transportError := by
  rfl

/-- C2 (amended): if the transport closes or errors after `k` complete
chunks (`k < cnt`), the Receiver produces no partial-chunk record for the
failed iteration and aborts the remaining iterations — the loop state holds
exactly the `k` records — but the process then terminates with the
transport error and summary derivation does NOT proceed: no SessionSummary
is produced at all. -/
theorem abort_behaviour (cnt sz : Nat) (trace : Nat → Option ℚ) (ds : List ℚ)
    (h1 : deliversFrom trace 1 ds) (h2 : trace (1 + ds.length) = none)
    (h3 : ds.length < cnt) :
    clientRun cnt sz true trace = Except.error ClientError.transportError
  ∧ (runLoop trace sz 1 cnt initState).1.records = recordsFrom sz 1 ds := by
  have habort := runLoop_abort trace sz ds 1 cnt initState h1 h2 h3
  constructor
  · simp [clientRun, habort]
  · rw [habort]
    simp [accumulated_records, initState]

/-- C2 amended witness: 2 chunks delivered, failure at iteration 3 of 5. -/
theorem abort_behaviour_witness :
    clientRun 5 3 true trFail2 = Except.error ClientError.transportError
  ∧ (runLoop trFail2 3 1 5 initState).1.records = recordsFrom 3 1 [1, 1] :=
  abort_behaviour 5 3 trFail2 [1, 1] ⟨rfl, rfl, trivial⟩ rfl (by norm_num)

/-- C3 counterexample: an accept failure in the server's `main` is only
printed to stderr; `main` still returns `Ok(())`, i.e. the process exits
with a zero outcome, contradicting "an accept failure in the server's main
… results in a non-zero process outcome". -/
theorem accept_failure_exits_zero :
    serverMain true Incoming.connErr = Except.ok () := by
  rfl

/-- C3 (amended): the client-side errors (connect failure, mid-session read
failure) surface to the top level via `?` and terminate the client with a
non-zero outcome, and no error is retried; but the server swallows both
accept failures and write failures — after a successful bind the server
always exits with a zero outcome — and only its bind failure is non-zero.
No ComputationError kind exists in the code. -/
theorem error_propagation (inc : Incoming) (trace : Nat → Option ℚ)
    (cnt sz : Nat) (ds : List ℚ) :
    serverMain false inc = Except.error ServerError.bindError
  ∧ serverMain true inc = Except.ok ()
  ∧ clientMain false trace = Except.error ClientError.connectionError
  ∧ (deliversFrom trace 1 ds → trace (1 + ds.length) = none →
      ds.length < cnt →
      clientRun cnt sz true trace = Except.error ClientError.transportError) := by
  refine ⟨rfl, ?_, rfl, fun h1 h2 h3 => ?_⟩
  · cases inc <;> rfl
  · have habort := runLoop_abort trace sz ds 1 cnt initState h1 h2 h3
    simp [clientRun, habort]

/-- C3 amended witness: an accept-failure instance and an immediate
transport-failure instance. -/
theorem error_propagation_witness :
    serverMain false Incoming.connErr = Except.error ServerError.bindError
  ∧ serverMain true Incoming.connErr = Except.ok ()
  ∧ clientMain false (fun _ => none) = Except.error ClientError.connectionError
  ∧ clientRun 1 1 true (fun _ => none) = Except.error ClientError.transportError := by
  obtain ⟨a, b, c, hd⟩ := error_propagation Incoming.connErr (fun _ => none) 1 1 []
  exact ⟨a, b, c, hd trivial rfl (by norm_num)⟩

/-- C8 counterexample: when the very first write fails, `handle_client`
prints to stderr and returns `()` — nothing is reported to its caller, and
the server process still exits with a zero outcome, contradicting "reports
the failure to its caller". -/
theorem write_failure_unreported :
    serverMain true (Incoming.conn (fun _ => false)) = Except.ok () := by
  rfl

/-- C8 (amended): the Sender emits exactly `cnt` chunks of exactly `sz`
zero bytes each, in order, and the wire format is the flat concatenation of
`cnt × sz` bytes with no framing or headers; if the write at index `k`
fails it aborts the remaining chunks without retrying, having emitted
exactly `k` chunks — but the failure is only logged, not reported to the
caller: `handle_client` returns `()` and the server exits with a zero
outcome. -/
theorem sender_contract (sz cnt : Nat) (writeOk : Nat → Bool) :
    ((∀ j, j < cnt → writeOk j = true) →
      sendLoop writeOk (zeroChunk sz) 0 cnt = (List.replicate cnt (zeroChunk sz), true))
  ∧ (List.replicate cnt (zeroChunk sz)).flatten = List.replicate (cnt * sz) (0 : Nat)
  ∧ (∀ k, k < cnt → (∀ j, j < k → writeOk j = true) → writeOk k = false →
      sendLoop writeOk (zeroChunk sz) 0 cnt = (List.replicate k (zeroChunk sz), false)
      ∧ serverMain true (Incoming.conn writeOk) = Except.ok ()) := by
  refine ⟨fun hok => ?_, zeroChunk_flatten sz cnt, fun k hk hok hfail => ⟨?_, rfl⟩⟩
  · exact sendLoop_all_ok writeOk (zeroChunk sz) cnt 0 (fun m hm => by
      simpa using hok m hm)
  · exact sendLoop_abort writeOk (zeroChunk sz) k cnt 0 hk
      (fun m hm => by simpa using hok m hm) (by simpa using hfail)

/-- C8 amended witness: 3 chunks of 2 bytes with the third write failing. -/
theorem sender_contract_witness :
    sendLoop (fun j => decide (j < 2)) (zeroChunk 2) 0 3
      = (List.replicate 2 (zeroChunk 2), false)
  ∧ serverMain true (Incoming.conn (fun j => decide (j < 2))) = Except.ok () :=
  (sender_contract 2 3 (fun j => decide (j < 2))).2.2 2 (by norm_num)
    (fun j hj => by simpa using hj) (by decide)

theorem deliversFrom_const (c : ℚ) :
    ∀ (n i : Nat), deliversFrom (fun _ => some c) i (List.replicate n c) := by
  intro n
  induction n with
  | zero => intro i; trivial
  | succ m ih => intro i; exact ⟨rfl, ih (i + 1)⟩

/-- C10 counterexample: on a session where every chunk's measured duration
is zero, the end-of-session average is not treated as a possible
computation failure either — the run still returns `Except.ok` and the
average is silently `+inf`, so nothing in the pipeline treats the summary
average as failable. -/
theorem summary_average_not_failable :
    Except.map (fun o => o.avg_effective_rate_bps)
      (clientMain true (fun _ => some 0)) = Except.ok F.pinf := by
  have hok := clientRun_of_delivers 100 1000000 (fun _ => some 0)
    (List.replicate 100 0) (deliversFrom_const 0 100 1) (by simp)
  rw [clientMain, hok]
  have htd := accumulated_total_data 1000000 (List.replicate 100 0) initState 1
  have htt := accumulated_total_time 1000000 (List.replicate 100 0) initState 1
  simp only [Except.map, mkOutput, calculate_effective_data_rate, fdiv]
  rw [htd, htt]
  norm_num [initState, List.sum_replicate]

/-- C10 (amended): the per-chunk effective-rate division is unguarded —
if a chunk's measured duration is zero the Receiver still produces its
ChunkRecord, with the non-finite rate `+inf`, and continues: whenever the
transport delivers all `cnt` chunks the session completes with `Except.ok`
and all `cnt` records regardless of the measured durations; neither the
per-chunk rates nor the end-of-session average ever raise an error. -/
theorem chunk_rate_unguarded (cnt sz : Nat) (trace : Nat → Option ℚ)
    (ds : List ℚ) (h1 : deliversFrom trace 1 ds) (h2 : ds.length = cnt)
    (hsz : 0 < sz) :
    ∃ out, clientRun cnt sz true trace = Except.ok out
      ∧ out.records.length = cnt
      ∧ ∀ r ∈ out.records,
          r.duration_seconds = F.fin 0 → r.effective_rate_bps = F.pinf := by
  refine ⟨mkOutput (accumulated sz initState 1 ds),
    clientRun_of_delivers cnt sz trace ds h1 h2, ?_, ?_⟩
  · simp [mkOutput, accumulated_records, initState, recordsFrom_length, h2]
  · intro r hr hdur
    have hr' : r ∈ recordsFrom sz 1 ds := by
      simpa [mkOutput, accumulated_records, initState] using hr
    have hrate := recordsFrom_rate_law sz ds 1 r hr'
    have hpos : (0 : ℚ) < (sz : ℚ) * 8 := by
      have hsz' : (0 : ℚ) < (sz : ℚ) := by exact_mod_cast hsz
      nlinarith
    rw [hrate, hdur, fdiv, if_pos rfl, if_pos hpos]

/-- C10 amended witness: a 3-chunk session whose middle chunk takes zero
measured time still completes with 3 records. -/
theorem chunk_rate_unguarded_witness :
    ∃ out, clientRun 3 2 true trMid = Except.ok out
      ∧ out.records.length = 3
      ∧ ∀ r ∈ out.records,
          r.duration_seconds = F.fin 0 → r.effective_rate_bps = F.pinf :=
  chunk_rate_unguarded 3 2 trMid [1, 0, 1] ⟨rfl, rfl, rfl, trivial⟩ rfl
    (by norm_num)
